import Mathlib

/-!
# Verification of the extxyz dump writer

Shallow embedding of `dump_extxyz.cpp` / `dump_extxyz.h` (a LAMMPS dump
style) and proofs about its label table, record packing, header emission
and buffered string conversion.

Modelling conventions:
* C `double` values are modelled as exact rationals (`Rat`); the claims
  verified here are about which arithmetic expressions are computed, not
  about rounding.
* The `sprintf`/`fprintf` rendering of one record line is abstracted by an
  arbitrary function `app` taking the active format template, the looked-up
  type label and the three coordinates, and returning the emitted bytes
  (`List Char`).  Both output paths in the source invoke the identical
  rendering call, which this abstraction captures.
* Emitted byte sequences are `List Char`; file writes are modelled by
  returning the bytes that would reach the sink.
-/

namespace DumpEXTXYZ1

/-- Per-line size bound used by the buffered writer
(source: `#define ONELINE 128`). -/
def ONELINE : Int := 128

/-- Fixed buffer growth increment (source: `#define DELTA 1048576`). -/
def DELTA : Int := 1048576

/-- Modelled from the spec: `MAXSMALLINT` is defined in the surrounding
LAMMPS engine, not in this repository; the spec describes the ceiling as
"the maximum representable signed 32-bit size". -/
def MAXSMALLINT : Int := 2147483647

/-! ## Label table (`typenames`) -/

/-- Default initialization of `typenames` performed by `init_style`: when the table is
absent (`nullptr`), build labels `"1" .. "ntypes"`, each the decimal string
of its 1-based type code (`sprintf(typenames[itype], "%d", itype)`); when a
table already exists, leave it untouched.  Slot `itype` of the C array is
position `itype - 1` of the list. -/
def init_typenames (ntypes : Nat) (typenames : Option (List String)) :
    Option (List String) :=
  match typenames with
  | some tn => some tn
  | none => some ((List.range ntypes).map fun i => toString (i + 1))

/-- Lookup of `typenames[t]` for a 1-based type code `t` in the list model
of the table. -/
def typename_at (tn : List String) (t : Nat) : Option String :=
  tn.get? (t - 1)

/-- Source function `modify_param(narg, arg)`: on keyword `"element"`, fail when fewer than
`ntypes` labels follow the keyword (`narg < ntypes+1`), leaving the table as
it was (the error value carries the table state at the abort point);
otherwise discard the old table, adopt `arg[1..ntypes]` as the new labels
and report `ntypes + 1` consumed tokens.  On any other keyword consume 0
tokens and leave the table unchanged. -/
def modify_param (ntypes : Nat) (typenames : Option (List String))
    (args : List String) :
    Except (String × Option (List String)) (Nat × Option (List String)) :=
  if args.head? = some ("element") then
    if args.length < ntypes + 1 then
      Except.error ("Dump modify element names do not match atom types", typenames)
    else
      Except.ok (ntypes + 1, some ((args.drop 1).take ntypes))
  else
    Except.ok (0, typenames)

/-! ## Record packing (`pack`, `pack_triclinic`) -/

/-- The per-particle engine state read by the pack routines: `atom->tag[i]`,
`atom->type[i]`, `atom->mask[i]` and the raw position `atom->x[i][0..2]`. -/
structure Atom where
  tag : Int
  type : Int
  mask : Nat
  x : Rat
  y : Rat
  z : Rat

/-- Source function `pack(ids)` for the axis-aligned (non-triclinic) box: for every local
particle whose mask intersects the group bit, push five slots onto `buf`
(tag, type, and each coordinate shifted down by the lower box bound on its
axis) and, when an id array is requested, record the tag.  Returns the
flat buffer together with the id list the source would have written. -/
def pack (groupbit : Nat) (boxxlo boxylo boxzlo : Rat) :
    List Atom → List Rat × List Int
  | [] => ([], [])
  | a :: rest =>
    let r := pack groupbit boxxlo boxylo boxzlo rest
    if a.mask &&& groupbit ≠ 0 then
      ((a.tag : Rat) :: (a.type : Rat) ::
         (a.x - boxxlo) :: (a.y - boxylo) :: (a.z - boxzlo) :: r.1,
       a.tag :: r.2)
    else r

/-- Source function `pack_triclinic(ids)`: identical traversal, but the three coordinates
are pushed raw, with no bound subtracted. -/
def pack_triclinic (groupbit : Nat) :
    List Atom → List Rat × List Int
  | [] => ([], [])
  | a :: rest =>
    let r := pack_triclinic groupbit rest
    if a.mask &&& groupbit ≠ 0 then
      ((a.tag : Rat) :: (a.type : Rat) :: a.x :: a.y :: a.z :: r.1,
       a.tag :: r.2)
    else r

/-- The sublist of atoms selected by the mask/group-bit test, in traversal
order. -/
def sel (groupbit : Nat) (atoms : List Atom) : List Atom :=
  atoms.filter fun a => a.mask &&& groupbit != 0

/-! ## Frame header -/

/-- The orthogonal box bounds the dump reads (`boxxlo..boxzhi`). -/
structure Box where
  boxxlo : Rat
  boxxhi : Rat
  boxylo : Rat
  boxyhi : Rat
  boxzlo : Rat
  boxzhi : Rat

/-- Source function `header_binary(n)`: prints the particle count line, then the lattice
descriptor line whose diagonal entries are the three box extents
(`hi - lo`) and whose off-diagonal entries are the literal `0.0`.
`showNum` abstracts `fmt::format` number rendering for the extents. -/
def header_binary (showNum : Rat → String) (n : Int) (b : Box) : String :=
  (toString n ++ "\n") ++
    ("Lattice=\"" ++ showNum (b.boxxhi - b.boxxlo) ++ " 0.0 0.0 0.0 " ++
      showNum (b.boxyhi - b.boxylo) ++ " 0.0 0.0 0.0 " ++
      showNum (b.boxzhi - b.boxzlo) ++ "\" " ++ "\n")

/-- Source function `header_binary_triclinic(n)`: the triclinic variant receives the tilt
factors of the (triclinic-capable) domain as well, but its body reads only
the orthogonal bounds and emits exactly the same two lines as
`header_binary`. -/
def header_binary_triclinic (showNum : Rat → String) (n : Int) (b : Box)
    (xy xz yz : Rat) : String :=
  (toString n ++ "\n") ++
    ("Lattice=\"" ++ showNum (b.boxxhi - b.boxxlo) ++ " 0.0 0.0 0.0 " ++
      showNum (b.boxyhi - b.boxylo) ++ " 0.0 0.0 0.0 " ++
      showNum (b.boxzhi - b.boxzlo) ++ "\" " ++ "\n")

/-- The header strategy selected once by `init_style` from the domain's
triclinic flag. -/
inductive HeaderChoice where
  | binary : HeaderChoice
  | binaryTriclinic : HeaderChoice

/-- Source function `write_header(n)`: only the coordinating process (`me == 0`) runs the
selected header routine; every other process emits nothing. -/
def write_header (showNum : Rat → String) (choice : HeaderChoice) (me : Nat)
    (n : Int) (b : Box) (xy xz yz : Rat) : String :=
  if me = 0 then
    match choice with
    | HeaderChoice.binary => header_binary showNum n b
    | HeaderChoice.binaryTriclinic => header_binary_triclinic showNum n b xy xz yz
  else ""

/-! ## Output stream writer (`convert_string`, `write_string`, `write_lines`) -/

/-- One record of the flat `mybuf` array handed to the writer: `size_one = 5`
consecutive numeric slots (identifier, type code, three coordinates), all
carried as values of the buffer's `double` element type. -/
structure WRec where
  tag : Rat
  type : Rat
  x : Rat
  y : Rat
  z : Rat

/-- Truncation of a rational toward zero, modelling the C
`static_cast<int>` applied to the `double` type slot. -/
def truncInt (q : Rat) : Int :=
  q.num.tdiv (q.den : Int)

/-- The bytes of one formatted record line: the source's
`sprintf(format, typenames[(int)mybuf[m+1]], mybuf[m+2], mybuf[m+3], mybuf[m+4])`
with the rendering abstracted by `app` (applied to the active format
template, the looked-up label and the three coordinates). -/
def format_line (app : String → String → Rat → Rat → Rat → List Char)
    (format : String) (typenames : Int → String) (r : WRec) : List Char :=
  app format (typenames (truncInt r.type)) r.x r.y r.z

/-- Source function `write_lines(n, mybuf)`: formats each record with the identical
rendering call and writes it straight to the sink; the returned bytes are
the concatenation of the record lines in order. -/
def write_lines (app : String → String → Rat → Rat → Rat → List Char)
    (format : String) (typenames : Int → String) : List WRec → List Char
  | [] => []
  | r :: rest =>
    format_line app format typenames r ++ write_lines app format typenames rest

/-- The loop of `convert_string`, over the remaining records and the
in-call state: current offset, the bytes written into `sbuf` so far this
call, and the current capacity `maxsbuf`.  Before each record, if the
remaining capacity is within `ONELINE` of being exceeded the buffer grows
by `DELTA`, unless that growth would push capacity past `MAXSMALLINT`, in
which case the call returns `-1` with the buffer untouched.  Otherwise the
line is formatted at the offset and the offset advances by its length.
The result is `(return value, bytes in sbuf, final maxsbuf)`. -/
def convert_string_from (app : String → String → Rat → Rat → Rat → List Char)
    (format : String) (typenames : Int → String) :
    List WRec → Int → List Char → Int → Int × List Char × Int
  | [], offset, data, maxsbuf => (offset, data, maxsbuf)
  | r :: rest, offset, data, maxsbuf =>
    if offset + ONELINE > maxsbuf then
      if maxsbuf + DELTA > MAXSMALLINT then
        (-1, data, maxsbuf)
      else
        convert_string_from app format typenames rest
          (offset + ((format_line app format typenames r).length : Int))
          (data ++ format_line app format typenames r) (maxsbuf + DELTA)
    else
      convert_string_from app format typenames rest
        (offset + ((format_line app format typenames r).length : Int))
        (data ++ format_line app format typenames r) maxsbuf

/-- Source function `convert_string(n, mybuf)`: runs the conversion loop from offset `0`
on the session's buffer with capacity `maxsbuf`; returns the final offset
(total formatted bytes) or `-1`, together with the bytes written and the
capacity after the call. -/
def convert_string (app : String → String → Rat → Rat → Rat → List Char)
    (format : String) (typenames : Int → String) (recs : List WRec)
    (maxsbuf : Int) : Int × List Char × Int :=
  convert_string_from app format typenames recs 0 [] maxsbuf

/-- Source function `write_string(n, mybuf)`: `fwrite` of `n` bytes of the already
formatted buffer to the sink; a null buffer writes nothing. -/
def write_string (n : Nat) (mybuf : Option (List Char)) : List Char :=
  match mybuf with
  | none => []
  | some s => s.take n

/-- Asserts that every `sprintf` performed by the conversion loop on these
inputs writes inside the buffer: at each record that gets formatted, after
any growth taken that iteration, the conservative write region
`offset .. offset + ONELINE` lies within the current capacity (a `-1`
return performs no write and discharges the obligation). -/
def writes_in_bounds (app : String → String → Rat → Rat → Rat → List Char)
    (format : String) (typenames : Int → String) :
    List WRec → Int → Int → Prop
  | [], _, _ => True
  | r :: rest, offset, maxsbuf =>
    if offset + ONELINE > maxsbuf then
      maxsbuf + DELTA > MAXSMALLINT ∨
        (offset + ONELINE ≤ maxsbuf + DELTA ∧
          writes_in_bounds app format typenames rest
            (offset + ((format_line app format typenames r).length : Int))
            (maxsbuf + DELTA))
    else
      offset + ONELINE ≤ maxsbuf ∧
        writes_in_bounds app format typenames rest
          (offset + ((format_line app format typenames r).length : Int))
          maxsbuf

/-! ## Claims about the label table and the header -/

/-- C6: for every type count `T ≥ 1`, default initialization of the label
table assigns to each type code `t` in `1..T` the decimal string of `t`,
and the initialization is a no-op when a table already exists. -/
theorem init_typenames_default (T : Nat) (hT : 1 ≤ T) (t : Nat)
    (h1 : 1 ≤ t) (ht : t ≤ T) :
    (∃ l, init_typenames T none = some l ∧ typename_at l t = some (toString t)) ∧
    ∀ tn : List String, init_typenames T (some tn) = some tn := by
  constructor
  · refine ⟨_, rfl, ?_⟩
    have h2 : t - 1 < T := by omega
    have h3 : t - 1 + 1 = t := by omega
    unfold typename_at
    rw [List.get?_map, List.get?_range h2, Option.map_some', h3]
  · intro tn
    rfl

/-- Witness for `init_typenames_default` at `T = 3`, `t = 2`. -/
theorem init_typenames_default_witness :
    (∃ l, init_typenames 3 none = some l ∧ typename_at l 2 = some (toString 2)) ∧
    ∀ tn : List String, init_typenames 3 (some tn) = some tn :=
  init_typenames_default 3 (by decide) 2 (by decide) (by decide)

/-- C7: a custom-label request supplying fewer than `type_count` labels
fails with the configuration error, and the table at the abort point is the
unmodified previous table. -/
theorem modify_param_too_few_atomic (ntypes : Nat) (tn : Option (List String))
    (args : List String) (h0 : args.head? = some ("element"))
    (h1 : args.length < ntypes + 1) :
    modify_param ntypes tn args =
      Except.error ("Dump modify element names do not match atom types", tn) := by
  unfold modify_param
  rw [if_pos h0, if_pos h1]

/-- Witness for `modify_param_too_few_atomic`: two types, one label. -/
theorem modify_param_too_few_atomic_witness :
    modify_param 2 (some ["A", "B"]) ["element", "X"] =
      Except.error ("Dump modify element names do not match atom types",
        some ["A", "B"]) :=
  modify_param_too_few_atomic 2 (some ["A", "B"]) ["element", "X"]
    (by decide) (by decide)

/-- C8: a custom-label request supplying at least `type_count` labels
replaces the entire table with the new labels (the result is independent of
the previous table, every lookup sees the new list) and reports
`type_count + 1` consumed tokens. -/
theorem modify_param_replaces_all (ntypes : Nat) (tn tn2 : Option (List String))
    (args : List String) (h0 : args.head? = some ("element"))
    (h1 : ntypes + 1 ≤ args.length) :
    modify_param ntypes tn args =
      Except.ok (ntypes + 1, some ((args.drop 1).take ntypes)) ∧
    modify_param ntypes tn args = modify_param ntypes tn2 args ∧
    ∀ t, 1 ≤ t → t ≤ ntypes →
      typename_at ((args.drop 1).take ntypes) t = args.get? t := by
  have hlt : ¬ args.length < ntypes + 1 := by omega
  refine ⟨?_, ?_, ?_⟩
  · unfold modify_param
    rw [if_pos h0, if_neg hlt]
  · unfold modify_param
    rw [if_pos h0, if_neg hlt, if_pos h0, if_neg hlt]
  · intro t ht1 ht2
    have h2 : t - 1 < ntypes := by omega
    have h3 : 1 + (t - 1) = t := by omega
    unfold typename_at
    rw [List.get?_take h2, List.get?_drop, h3]

/-- Witness for `modify_param_replaces_all`: two types, labels `C`, `H`. -/
theorem modify_param_replaces_all_witness :
    modify_param 2 none ["element", "C", "H"] =
      Except.ok (3, some ((["element", "C", "H"].drop 1).take 2)) ∧
    modify_param 2 none ["element", "C", "H"] =
      modify_param 2 (some ["old"]) ["element", "C", "H"] ∧
    ∀ t, 1 ≤ t → t ≤ 2 →
      typename_at ((["element", "C", "H"].drop 1).take 2) t =
        ["element", "C", "H"].get? t :=
  modify_param_replaces_all 2 none (some ["old"]) ["element", "C", "H"]
    (by decide) (by decide)

/-- C9: the axis-aligned and the general/triclinic header-emission variants
produce identical output for every particle count, box and tilt: both emit
the diagonal-only lattice form built from the axis-aligned extents. -/
theorem header_variants_agree (showNum : Rat → String) (n : Int) (b : Box)
    (xy xz yz : Rat) :
    header_binary_triclinic showNum n b xy xz yz = header_binary showNum n b :=
  rfl

/-- C5: `write_header(n)` on the coordinating process (`me = 0`) emits
exactly the two header lines — the particle count, then the lattice
descriptor whose diagonal extents are `hi - lo` per axis with `0.0`
off-diagonal terms — and on any other process emits nothing. -/
theorem write_header_coordinator_only (showNum : Rat → String) (me : Nat)
    (n : Int) (b : Box) (xy xz yz : Rat) :
    (me = 0 → write_header showNum HeaderChoice.binary me n b xy xz yz =
      (toString n ++ "\n") ++
        ("Lattice=\"" ++ showNum (b.boxxhi - b.boxxlo) ++ " 0.0 0.0 0.0 " ++
          showNum (b.boxyhi - b.boxylo) ++ " 0.0 0.0 0.0 " ++
          showNum (b.boxzhi - b.boxzlo) ++ "\" " ++ "\n")) ∧
    (me ≠ 0 → write_header showNum HeaderChoice.binary me n b xy xz yz = "") := by
  constructor
  · intro h
    subst h
    rfl
  · intro h
    unfold write_header
    rw [if_neg h]

/-- Witness for `write_header_coordinator_only`: 42 particles in the box
`(0,0,0)-(10,5,2)`, on the coordinator and on rank 1. -/
theorem write_header_coordinator_only_witness :
    (write_header (fun q => toString q) HeaderChoice.binary 0 42
        ⟨0, 10, 0, 5, 0, 2⟩ 0 0 0 =
      (toString (42 : Int) ++ "\n") ++
        ("Lattice=\"" ++ toString ((10 : Rat) - 0) ++ " 0.0 0.0 0.0 " ++
          toString ((5 : Rat) - 0) ++ " 0.0 0.0 0.0 " ++
          toString ((2 : Rat) - 0) ++ "\" " ++ "\n")) ∧
    write_header (fun q => toString q) HeaderChoice.binary 1 42
        ⟨0, 10, 0, 5, 0, 2⟩ 0 0 0 = "" :=
  ⟨(write_header_coordinator_only (fun q => toString q) 0 42
      ⟨0, 10, 0, 5, 0, 2⟩ 0 0 0).1 rfl,
   (write_header_coordinator_only (fun q => toString q) 1 42
      ⟨0, 10, 0, 5, 0, 2⟩ 0 0 0).2 (by decide)⟩

/-! ## Claims about record packing -/

/-- The five buffer slots `pack` pushes for one selected atom. -/
def packRec (boxxlo boxylo boxzlo : Rat) (a : Atom) : List Rat :=
  [(a.tag : Rat), (a.type : Rat), a.x - boxxlo, a.y - boxylo, a.z - boxzlo]

/-- The five buffer slots `pack_triclinic` pushes for one selected atom. -/
def packRecT (a : Atom) : List Rat :=
  [(a.tag : Rat), (a.type : Rat), a.x, a.y, a.z]

theorem pack_fst_eq (gb : Nat) (xlo ylo zlo : Rat) (atoms : List Atom) :
    (pack gb xlo ylo zlo atoms).1 =
      (sel gb atoms).flatMap (packRec xlo ylo zlo) := by
  induction atoms with
  | nil => rfl
  | cons a rest ih =>
    by_cases h : a.mask &&& gb = 0
    · simp [pack, sel, List.filter_cons, h, packRec]
      simpa [sel] using ih
    · simp [pack, sel, List.filter_cons, h, packRec]
      simpa [sel] using ih

theorem pack_triclinic_fst_eq (gb : Nat) (atoms : List Atom) :
    (pack_triclinic gb atoms).1 = (sel gb atoms).flatMap packRecT := by
  induction atoms with
  | nil => rfl
  | cons a rest ih =>
    by_cases h : a.mask &&& gb = 0
    · simp [pack_triclinic, sel, List.filter_cons, h, packRecT]
      simpa [sel] using ih
    · simp [pack_triclinic, sel, List.filter_cons, h, packRecT]
      simpa [sel] using ih

theorem flatMap_len5_get {α β : Type} (f : α → List β)
    (hf : ∀ a, (f a).length = 5) (l : List α) (k j : Nat) (hj : j < 5) :
    (l.flatMap f).get? (5 * k + j) = (l.get? k).bind fun a => (f a).get? j := by
  induction l generalizing k with
  | nil => simp
  | cons a rest ih =>
    rw [List.flatMap_cons]
    cases k with
    | zero =>
      have hx : j < (f a).length := by rw [hf a]; exact hj
      rw [Nat.mul_zero, Nat.zero_add, List.get?_append hx]
      simp
    | succ k =>
      have h5 : (f a).length ≤ 5 * (k + 1) + j := by rw [hf a]; omega
      rw [List.get?_append_right h5, hf a]
      have hidx : 5 * (k + 1) + j - 5 = 5 * k + j := by omega
      rw [hidx, ih k]
      simp

/-- C4: for every record (position `k` among the selected atoms) and each
axis independently, the axis-aligned pack variant outputs the raw
coordinate minus that axis's lower box bound, the triclinic variant outputs
the raw coordinate unchanged, and both pass the identifier and type code
through into the record's five output slots. -/
theorem pack_variants_slots (gb : Nat) (xlo ylo zlo : Rat)
    (atoms : List Atom) (k : Nat) :
    ((pack gb xlo ylo zlo atoms).1.get? (5 * k) =
      ((sel gb atoms).get? k).map fun a => (a.tag : Rat)) ∧
    ((pack gb xlo ylo zlo atoms).1.get? (5 * k + 1) =
      ((sel gb atoms).get? k).map fun a => (a.type : Rat)) ∧
    ((pack gb xlo ylo zlo atoms).1.get? (5 * k + 2) =
      ((sel gb atoms).get? k).map fun a => a.x - xlo) ∧
    ((pack gb xlo ylo zlo atoms).1.get? (5 * k + 3) =
      ((sel gb atoms).get? k).map fun a => a.y - ylo) ∧
    ((pack gb xlo ylo zlo atoms).1.get? (5 * k + 4) =
      ((sel gb atoms).get? k).map fun a => a.z - zlo) ∧
    ((pack_triclinic gb atoms).1.get? (5 * k) =
      ((sel gb atoms).get? k).map fun a => (a.tag : Rat)) ∧
    ((pack_triclinic gb atoms).1.get? (5 * k + 1) =
      ((sel gb atoms).get? k).map fun a => (a.type : Rat)) ∧
    ((pack_triclinic gb atoms).1.get? (5 * k + 2) =
      ((sel gb atoms).get? k).map fun a => a.x) ∧
    ((pack_triclinic gb atoms).1.get? (5 * k + 3) =
      ((sel gb atoms).get? k).map fun a => a.y) ∧
    ((pack_triclinic gb atoms).1.get? (5 * k + 4) =
      ((sel gb atoms).get? k).map fun a => a.z) := by
  have hlen : ∀ a, (packRec xlo ylo zlo a).length = 5 := fun a => rfl
  have hlenT : ∀ a, (packRecT a).length = 5 := fun a => rfl
  have hP : ∀ j, j < 5 → (pack gb xlo ylo zlo atoms).1.get? (5 * k + j) =
      ((sel gb atoms).get? k).bind fun a => (packRec xlo ylo zlo a).get? j := by
    intro j hj
    rw [pack_fst_eq, flatMap_len5_get (packRec xlo ylo zlo) hlen (sel gb atoms) k j hj]
  have hT : ∀ j, j < 5 → (pack_triclinic gb atoms).1.get? (5 * k + j) =
      ((sel gb atoms).get? k).bind fun a => (packRecT a).get? j := by
    intro j hj
    rw [pack_triclinic_fst_eq, flatMap_len5_get packRecT hlenT (sel gb atoms) k j hj]
  refine ⟨?_, ?_, ?_, ?_, ?_, ?_, ?_, ?_, ?_, ?_⟩
  · have h := hP 0 (by omega)
    cases ho : (sel gb atoms)[k]? <;> simpa [packRec, ho] using h
  · have h := hP 1 (by omega)
    cases ho : (sel gb atoms)[k]? <;> simpa [packRec, ho] using h
  · have h := hP 2 (by omega)
    cases ho : (sel gb atoms)[k]? <;> simpa [packRec, ho] using h
  · have h := hP 3 (by omega)
    cases ho : (sel gb atoms)[k]? <;> simpa [packRec, ho] using h
  · have h := hP 4 (by omega)
    cases ho : (sel gb atoms)[k]? <;> simpa [packRec, ho] using h
  · have h := hT 0 (by omega)
    cases ho : (sel gb atoms)[k]? <;> simpa [packRecT, ho] using h
  · have h := hT 1 (by omega)
    cases ho : (sel gb atoms)[k]? <;> simpa [packRecT, ho] using h
  · have h := hT 2 (by omega)
    cases ho : (sel gb atoms)[k]? <;> simpa [packRecT, ho] using h
  · have h := hT 3 (by omega)
    cases ho : (sel gb atoms)[k]? <;> simpa [packRecT, ho] using h
  · have h := hT 4 (by omega)
    cases ho : (sel gb atoms)[k]? <;> simpa [packRecT, ho] using h

/-! ## Claims about the buffered conversion -/

theorem convert_from_cons_fail
    (app : String → String → Rat → Rat → Rat → List Char) (format : String)
    (typenames : Int → String) (r : WRec) (rest : List WRec) (offset : Int)
    (data : List Char) (cap : Int) (hg : offset + ONELINE > cap)
    (hc : cap + DELTA > MAXSMALLINT) :
    convert_string_from app format typenames (r :: rest) offset data cap =
      (-1, data, cap) := by
  simp [convert_string_from, hg, hc]

theorem convert_from_cons_grow
    (app : String → String → Rat → Rat → Rat → List Char) (format : String)
    (typenames : Int → String) (r : WRec) (rest : List WRec) (offset : Int)
    (data : List Char) (cap : Int) (hg : offset + ONELINE > cap)
    (hc : ¬ cap + DELTA > MAXSMALLINT) :
    convert_string_from app format typenames (r :: rest) offset data cap =
      convert_string_from app format typenames rest
        (offset + ((format_line app format typenames r).length : Int))
        (data ++ format_line app format typenames r) (cap + DELTA) := by
  simp [convert_string_from, hg, hc]

theorem convert_from_cons_nogrow
    (app : String → String → Rat → Rat → Rat → List Char) (format : String)
    (typenames : Int → String) (r : WRec) (rest : List WRec) (offset : Int)
    (data : List Char) (cap : Int) (hg : ¬ offset + ONELINE > cap) :
    convert_string_from app format typenames (r :: rest) offset data cap =
      convert_string_from app format typenames rest
        (offset + ((format_line app format typenames r).length : Int))
        (data ++ format_line app format typenames r) cap := by
  simp [convert_string_from, hg]

theorem convert_from_success
    (app : String → String → Rat → Rat → Rat → List Char) (format : String)
    (typenames : Int → String) (recs : List WRec) (offset : Int)
    (data : List Char) (cap : Int)
    (h : (convert_string_from app format typenames recs offset data cap).1 ≠ -1) :
    (convert_string_from app format typenames recs offset data cap).2.1 =
      data ++ write_lines app format typenames recs ∧
    (convert_string_from app format typenames recs offset data cap).1 =
      offset + ((write_lines app format typenames recs).length : Int) ∧
    cap ≤ (convert_string_from app format typenames recs offset data cap).2.2 := by
  induction recs generalizing offset data cap with
  | nil =>
    simp [convert_string_from, write_lines]
  | cons r rest ih =>
    have hD : (0 : Int) < DELTA := by norm_num [DELTA]
    by_cases hg : offset + ONELINE > cap
    · by_cases hc : cap + DELTA > MAXSMALLINT
      · rw [convert_from_cons_fail app format typenames r rest offset data cap hg hc] at h
        exact absurd rfl h
      · rw [convert_from_cons_grow app format typenames r rest offset data cap hg hc] at h ⊢
        obtain ⟨h1, h2, h3⟩ := ih _ _ _ h
        refine ⟨?_, ?_, ?_⟩
        · rw [h1]
          simp [write_lines]
        · rw [h2]
          simp [write_lines]
          push_cast
          ring
        · omega
    · rw [convert_from_cons_nogrow app format typenames r rest offset data cap hg] at h ⊢
      obtain ⟨h1, h2, h3⟩ := ih _ _ _ h
      refine ⟨?_, ?_, h3⟩
      · rw [h1]
        simp [write_lines]
      · rw [h2]
        simp [write_lines]
        push_cast
        ring

/-- C1: whenever the buffered path succeeds (`convert_string` does not
return the `-1` sentinel), writing the returned number of bytes of the
buffer to the sink (`write_string`) produces exactly the byte sequence the
line-by-line path (`write_lines`) emits for the same records, for every
format template, label table and batch size including 0. -/
theorem convert_string_matches_write_lines
    (app : String → String → Rat → Rat → Rat → List Char) (format : String)
    (typenames : Int → String) (recs : List WRec) (cap0 : Int)
    (h : (convert_string app format typenames recs cap0).1 ≠ -1) :
    write_string (convert_string app format typenames recs cap0).1.toNat
        (some (convert_string app format typenames recs cap0).2.1) =
      write_lines app format typenames recs := by
  obtain ⟨h1, h2, h3⟩ :=
    convert_from_success app format typenames recs 0 [] cap0 h
  show (convert_string app format typenames recs cap0).2.1.take
      (convert_string app format typenames recs cap0).1.toNat =
    write_lines app format typenames recs
  unfold convert_string
  rw [h1, h2]
  simp

/-- Witness for `convert_string_matches_write_lines`: one record formatted
into an initially empty buffer. -/
theorem convert_string_matches_write_lines_witness :
    write_string
        (convert_string (fun _ _ _ _ _ => ['a', '\n']) "%s %g %g %g\n"
            (fun _ => "E") [⟨1, 1, 0, 0, 0⟩] 0).1.toNat
        (some (convert_string (fun _ _ _ _ _ => ['a', '\n']) "%s %g %g %g\n"
            (fun _ => "E") [⟨1, 1, 0, 0, 0⟩] 0).2.1) =
      write_lines (fun _ _ _ _ _ => ['a', '\n']) "%s %g %g %g\n"
        (fun _ => "E") [⟨1, 1, 0, 0, 0⟩] :=
  convert_string_matches_write_lines (fun _ _ _ _ _ => ['a', '\n'])
    "%s %g %g %g\n" (fun _ => "E") [⟨1, 1, 0, 0, 0⟩] 0 (by decide)

/-- C2: stated for an arbitrary in-call state of the conversion loop
(offset, bytes written so far, capacity), covering every call point of
`convert_string` (a fresh call is the state `0, [], maxsbuf`):
if the call returns the `-1` sentinel — which happens exactly when a needed
growth would push capacity past `MAXSMALLINT` (last two conjuncts) —
then the buffer holds, intact and unmodified, precisely the bytes of the
records already formatted by this call (`data ++` the lines of a proper
prefix of the batch). -/
theorem convert_string_overflow_keeps_prior_bytes
    (app : String → String → Rat → Rat → Rat → List Char) (format : String)
    (typenames : Int → String) (recs : List WRec) (offset : Int)
    (data : List Char) (cap : Int) (h0 : 0 ≤ offset)
    (h : (convert_string_from app format typenames recs offset data cap).1 = -1) :
    ∃ k, k < recs.length ∧
      (convert_string_from app format typenames recs offset data cap).2.1 =
        data ++ write_lines app format typenames (recs.take k) ∧
      (convert_string_from app format typenames recs offset data cap).2.2 +
        DELTA > MAXSMALLINT ∧
      (convert_string_from app format typenames recs offset data cap).2.2 <
        offset + ((write_lines app format typenames (recs.take k)).length : Int) +
          ONELINE := by
  induction recs generalizing offset data cap with
  | nil =>
    simp only [convert_string_from] at h
    omega
  | cons r rest ih =>
    by_cases hg : offset + ONELINE > cap
    · by_cases hc : cap + DELTA > MAXSMALLINT
      · rw [convert_from_cons_fail app format typenames r rest offset data cap hg hc] at h ⊢
        refine ⟨0, by simp, by simp [write_lines], hc, ?_⟩
        simp [write_lines]
        omega
      · rw [convert_from_cons_grow app format typenames r rest offset data cap hg hc] at h ⊢
        have h0' : 0 ≤ offset + ((format_line app format typenames r).length : Int) := by
          positivity
        obtain ⟨k, hk, hdata, hcap, hoff⟩ := ih _ _ _ h0' h
        refine ⟨k + 1, by simpa using hk, ?_, hcap, ?_⟩
        · rw [hdata]
          simp [write_lines]
        · rw [List.take_succ_cons]
          simp only [write_lines, List.length_append]
          push_cast
          omega
    · rw [convert_from_cons_nogrow app format typenames r rest offset data cap hg] at h ⊢
      have h0' : 0 ≤ offset + ((format_line app format typenames r).length : Int) := by
        positivity
      obtain ⟨k, hk, hdata, hcap, hoff⟩ := ih _ _ _ h0' h
      refine ⟨k + 1, by simpa using hk, ?_, hcap, ?_⟩
      · rw [hdata]
        simp [write_lines]
      · rw [List.take_succ_cons]
        simp only [write_lines, List.length_append]
        push_cast
        omega

/-- Witness for `convert_string_overflow_keeps_prior_bytes`: an in-call
state whose capacity can neither hold one more line nor grow under the
ceiling, with one byte already written. -/
theorem convert_string_overflow_keeps_prior_bytes_witness :
    ∃ k, k < ([⟨1, 1, 0, 0, 0⟩] : List WRec).length ∧
      (convert_string_from (fun _ _ _ _ _ => ['a', '\n']) "%s %g %g %g\n"
          (fun _ => "E") [⟨1, 1, 0, 0, 0⟩] 2146435000 ['x'] 2146435072).2.1 =
        ['x'] ++ write_lines (fun _ _ _ _ _ => ['a', '\n']) "%s %g %g %g\n"
          (fun _ => "E") (([⟨1, 1, 0, 0, 0⟩] : List WRec).take k) ∧
      (convert_string_from (fun _ _ _ _ _ => ['a', '\n']) "%s %g %g %g\n"
          (fun _ => "E") [⟨1, 1, 0, 0, 0⟩] 2146435000 ['x'] 2146435072).2.2 +
        DELTA > MAXSMALLINT ∧
      (convert_string_from (fun _ _ _ _ _ => ['a', '\n']) "%s %g %g %g\n"
          (fun _ => "E") [⟨1, 1, 0, 0, 0⟩] 2146435000 ['x'] 2146435072).2.2 <
        2146435000 + ((write_lines (fun _ _ _ _ _ => ['a', '\n']) "%s %g %g %g\n"
          (fun _ => "E") (([⟨1, 1, 0, 0, 0⟩] : List WRec).take k)).length : Int) +
          ONELINE :=
  convert_string_overflow_keeps_prior_bytes (fun _ _ _ _ _ => ['a', '\n'])
    "%s %g %g %g\n" (fun _ => "E") [⟨1, 1, 0, 0, 0⟩] 2146435000 ['x'] 2146435072
    (by decide) (by decide)

theorem convert_from_grow_count
    (app : String → String → Rat → Rat → Rat → List Char) (format : String)
    (typenames : Int → String) (recs : List WRec) :
    ∀ (offset : Int) (data : List Char) (cap : Int),
    (∀ r ∈ recs, ((format_line app format typenames r).length : Int) ≤ ONELINE) →
    0 ≤ offset → offset ≤ cap →
    offset + ((write_lines app format typenames recs).length : Int) +
      ONELINE + DELTA ≤ MAXSMALLINT + 1 →
    (convert_string_from app format typenames recs offset data cap).1 =
      offset + ((write_lines app format typenames recs).length : Int) ∧
    ∃ m : Nat,
      (convert_string_from app format typenames recs offset data cap).2.2 =
        cap + (m : Int) * DELTA ∧
      (cap < offset + ((write_lines app format typenames recs).length : Int) →
        1 ≤ m) := by
  induction recs with
  | nil =>
    intro offset data cap hline h0 h1 hceil
    refine ⟨by simp [convert_string_from, write_lines], 0, ?_, ?_⟩
    · simp [convert_string_from]
    · intro hlt
      simp only [write_lines, List.length_nil, Int.natCast_zero, add_zero] at hlt
      omega
  | cons r rest ih =>
    intro offset data cap hline h0 h1 hceil
    have hD : (0 : Int) < DELTA := by norm_num [DELTA]
    have hOD : ONELINE ≤ DELTA := by norm_num [ONELINE, DELTA]
    have hlr : ((format_line app format typenames r).length : Int) ≤ ONELINE :=
      hline r (List.mem_cons_self r rest)
    have hlrest : ∀ x ∈ rest,
        ((format_line app format typenames x).length : Int) ≤ ONELINE :=
      fun x hx => hline x (List.mem_cons_of_mem r hx)
    have hlen_cons : ((write_lines app format typenames (r :: rest)).length : Int) =
        ((format_line app format typenames r).length : Int) +
          ((write_lines app format typenames rest).length : Int) := by
      simp [write_lines]
    have hnn : (0 : Int) ≤ ((write_lines app format typenames rest).length : Int) := by
      positivity
    have hnnl : (0 : Int) ≤ ((format_line app format typenames r).length : Int) := by
      positivity
    by_cases hg : offset + ONELINE > cap
    · have hc : ¬ cap + DELTA > MAXSMALLINT := by omega
      rw [convert_from_cons_grow app format typenames r rest offset data cap hg hc]
      have h0' : 0 ≤ offset + ((format_line app format typenames r).length : Int) := by
        omega
      have h1' : offset + ((format_line app format typenames r).length : Int) ≤
          cap + DELTA := by omega
      have hceil' : offset + ((format_line app format typenames r).length : Int) +
          ((write_lines app format typenames rest).length : Int) +
          ONELINE + DELTA ≤ MAXSMALLINT + 1 := by omega
      obtain ⟨hr1, m, hm1, hm2⟩ := ih _ (data ++ format_line app format typenames r)
        (cap + DELTA) hlrest h0' h1' hceil'
      refine ⟨by omega, m + 1, ?_, fun _ => by omega⟩
      rw [hm1]
      push_cast
      ring
    · rw [convert_from_cons_nogrow app format typenames r rest offset data cap hg]
      have h0' : 0 ≤ offset + ((format_line app format typenames r).length : Int) := by
        omega
      have h1' : offset + ((format_line app format typenames r).length : Int) ≤ cap := by
        omega
      have hceil' : offset + ((format_line app format typenames r).length : Int) +
          ((write_lines app format typenames rest).length : Int) +
          ONELINE + DELTA ≤ MAXSMALLINT + 1 := by omega
      obtain ⟨hr1, m, hm1, hm2⟩ := ih _ (data ++ format_line app format typenames r)
        cap hlrest h0' h1' hceil'
      refine ⟨by omega, m, hm1, ?_⟩
      intro hlt
      exact hm2 (by omega)

/-- C3: for every batch whose cumulative formatted size exceeds the
buffer's initial capacity while the required total stays under the 32-bit
ceiling (and whose lines respect the per-line bound the growth heuristic
assumes), `convert_string` succeeds — it returns the exact total number of
formatted bytes, never the `-1` sentinel — and the capacity has grown by a
positive whole number of `DELTA` increments, never shrinking. -/
theorem convert_string_growth_returns_total
    (app : String → String → Rat → Rat → Rat → List Char) (format : String)
    (typenames : Int → String) (recs : List WRec) (cap0 : Int)
    (hline : ∀ r ∈ recs, ((format_line app format typenames r).length : Int) ≤ ONELINE)
    (hcap : 0 ≤ cap0)
    (hexceed : cap0 < ((write_lines app format typenames recs).length : Int))
    (hceil : ((write_lines app format typenames recs).length : Int) +
      ONELINE + DELTA ≤ MAXSMALLINT + 1) :
    (convert_string app format typenames recs cap0).1 =
      ((write_lines app format typenames recs).length : Int) ∧
    (convert_string app format typenames recs cap0).1 ≠ -1 ∧
    ∃ m : Nat, 1 ≤ m ∧
      (convert_string app format typenames recs cap0).2.2 =
        cap0 + (m : Int) * DELTA ∧
      cap0 ≤ (convert_string app format typenames recs cap0).2.2 := by
  have hD : (0 : Int) < DELTA := by norm_num [DELTA]
  obtain ⟨h1, m, hm1, hm2⟩ := convert_from_grow_count app format typenames recs
    0 [] cap0 hline le_rfl hcap (by omega)
  have hm : 1 ≤ m := hm2 (by omega)
  have hmd : (0 : Int) ≤ (m : Int) * DELTA :=
    mul_nonneg (by positivity) hD.le
  unfold convert_string
  refine ⟨by omega, by omega, m, hm, hm1, by omega⟩

/-- Witness for `convert_string_growth_returns_total`: a two-byte line into
an initially empty (capacity 0) buffer forces one growth. -/
theorem convert_string_growth_returns_total_witness :
    (convert_string (fun _ _ _ _ _ => ['a', '\n']) "%s %g %g %g\n"
        (fun _ => "E") [⟨1, 1, 0, 0, 0⟩] 0).1 =
      ((write_lines (fun _ _ _ _ _ => ['a', '\n']) "%s %g %g %g\n"
        (fun _ => "E") [⟨1, 1, 0, 0, 0⟩]).length : Int) ∧
    (convert_string (fun _ _ _ _ _ => ['a', '\n']) "%s %g %g %g\n"
        (fun _ => "E") [⟨1, 1, 0, 0, 0⟩] 0).1 ≠ -1 ∧
    ∃ m : Nat, 1 ≤ m ∧
      (convert_string (fun _ _ _ _ _ => ['a', '\n']) "%s %g %g %g\n"
          (fun _ => "E") [⟨1, 1, 0, 0, 0⟩] 0).2.2 =
        0 + (m : Int) * DELTA ∧
      0 ≤ (convert_string (fun _ _ _ _ _ => ['a', '\n']) "%s %g %g %g\n"
          (fun _ => "E") [⟨1, 1, 0, 0, 0⟩] 0).2.2 :=
  convert_string_growth_returns_total (fun _ _ _ _ _ => ['a', '\n'])
    "%s %g %g %g\n" (fun _ => "E") [⟨1, 1, 0, 0, 0⟩] 0
    (by decide) (by decide) (by decide) (by decide)

theorem convert_from_safe
    (app : String → String → Rat → Rat → Rat → List Char) (format : String)
    (typenames : Int → String) (recs : List WRec) :
    ∀ (offset cap : Int) (data : List Char),
    (∀ r ∈ recs, ((format_line app format typenames r).length : Int) ≤ ONELINE) →
    0 ≤ offset → offset ≤ cap →
    writes_in_bounds app format typenames recs offset cap ∧
    ((convert_string_from app format typenames recs offset data cap).1 ≠ -1 →
      (convert_string_from app format typenames recs offset data cap).1 ≤
        (convert_string_from app format typenames recs offset data cap).2.2) := by
  induction recs with
  | nil =>
    intro offset cap data hline h0 h1
    exact ⟨trivial, fun _ => h1⟩
  | cons r rest ih =>
    intro offset cap data hline h0 h1
    have hD : (0 : Int) < DELTA := by norm_num [DELTA]
    have hOD : ONELINE ≤ DELTA := by norm_num [ONELINE, DELTA]
    have hO : (0 : Int) < ONELINE := by norm_num [ONELINE]
    have hlr : ((format_line app format typenames r).length : Int) ≤ ONELINE :=
      hline r (List.mem_cons_self r rest)
    have hnnl : (0 : Int) ≤ ((format_line app format typenames r).length : Int) := by
      positivity
    have hlrest : ∀ x ∈ rest,
        ((format_line app format typenames x).length : Int) ≤ ONELINE :=
      fun x hx => hline x (List.mem_cons_of_mem r hx)
    by_cases hg : offset + ONELINE > cap
    · by_cases hc : cap + DELTA > MAXSMALLINT
      · refine ⟨?_, ?_⟩
        · simp only [writes_in_bounds, if_pos hg]
          exact Or.inl hc
        · intro hne
          rw [convert_from_cons_fail app format typenames r rest offset data cap hg hc] at hne
          exact absurd rfl hne
      · have h0' : 0 ≤ offset + ((format_line app format typenames r).length : Int) := by
          omega
        have h1' : offset + ((format_line app format typenames r).length : Int) ≤
            cap + DELTA := by omega
        obtain ⟨hw, hs⟩ := ih (offset + ((format_line app format typenames r).length : Int))
          (cap + DELTA) (data ++ format_line app format typenames r) hlrest h0' h1'
        refine ⟨?_, ?_⟩
        · simp only [writes_in_bounds, if_pos hg]
          exact Or.inr ⟨by omega, hw⟩
        · intro hne
          rw [convert_from_cons_grow app format typenames r rest offset data cap hg hc] at hne ⊢
          exact hs hne
    · have h0' : 0 ≤ offset + ((format_line app format typenames r).length : Int) := by
        omega
      have h1' : offset + ((format_line app format typenames r).length : Int) ≤ cap := by
        omega
      obtain ⟨hw, hs⟩ := ih (offset + ((format_line app format typenames r).length : Int))
        cap (data ++ format_line app format typenames r) hlrest h0' h1'
      refine ⟨?_, ?_⟩
      · simp only [writes_in_bounds, if_neg hg]
        exact ⟨by omega, hw⟩
      · intro hne
        rw [convert_from_cons_nogrow app format typenames r rest offset data cap hg] at hne ⊢
        exact hs hne

/-- C10: under the precondition that every formatted line occupies at most
`ONELINE` bytes, `convert_string` never writes past the buffer: every
`sprintf` it performs satisfies the in-bounds invariant
(`offset + ONELINE ≤ capacity` after any growth taken for that record), and
every successful return value is at most the final buffer capacity. -/
theorem convert_string_stays_in_bounds
    (app : String → String → Rat → Rat → Rat → List Char) (format : String)
    (typenames : Int → String) (recs : List WRec) (cap0 : Int)
    (hline : ∀ r ∈ recs, ((format_line app format typenames r).length : Int) ≤ ONELINE)
    (hcap : 0 ≤ cap0) :
    writes_in_bounds app format typenames recs 0 cap0 ∧
    ((convert_string app format typenames recs cap0).1 ≠ -1 →
      (convert_string app format typenames recs cap0).1 ≤
        (convert_string app format typenames recs cap0).2.2) := by
  have h := convert_from_safe app format typenames recs 0 cap0 [] hline le_rfl hcap
  unfold convert_string
  exact h

/-- Witness for `convert_string_stays_in_bounds`: one short line into an
initially empty (capacity 0) buffer. -/
theorem convert_string_stays_in_bounds_witness :
    writes_in_bounds (fun _ _ _ _ _ => ['a', '\n']) "%s %g %g %g\n"
      (fun _ => "E") [⟨1, 1, 0, 0, 0⟩] 0 0 ∧
    ((convert_string (fun _ _ _ _ _ => ['a', '\n']) "%s %g %g %g\n"
        (fun _ => "E") [⟨1, 1, 0, 0, 0⟩] 0).1 ≠ -1 →
      (convert_string (fun _ _ _ _ _ => ['a', '\n']) "%s %g %g %g\n"
          (fun _ => "E") [⟨1, 1, 0, 0, 0⟩] 0).1 ≤
        (convert_string (fun _ _ _ _ _ => ['a', '\n']) "%s %g %g %g\n"
            (fun _ => "E") [⟨1, 1, 0, 0, 0⟩] 0).2.2) :=
  convert_string_stays_in_bounds (fun _ _ _ _ _ => ['a', '\n'])
    "%s %g %g %g\n" (fun _ => "E") [⟨1, 1, 0, 0, 0⟩] 0 (by decide) (by decide)

end DumpEXTXYZ1
